import Mathlib

/-!
# Verification of the bio2parquet conversion pipeline

A shallow embedding of the bio2parquet repository (FASTA and CSV to
Parquet conversion).  Text files are modelled as lists of lines: the list
entries are the lines as Python file iteration yields them, with the
trailing newline removed; the empty list is the zero-byte file.  The
fallible Python functions become Lean functions returning explicit error
values from the repository's error taxonomy (`errors.py`).

The FASTA parsing in `fasta.py` delegates to Biopython's
`SeqIO.parse(handle, "fasta")`; the definitions below embed Biopython's
`SimpleFastaParser` together with the `SeqRecord` id extraction
(`title.split(None, 1)[0]`), since those determine the observable
behaviour of `read_fasta_file`.
-/

/-- The set of characters treated as whitespace by Python's
`str.strip` / `str.rstrip` / `str.split(None)`. -/
def isPyWs (c : Char) : Bool :=
  c = ' ' || c = '\t' || c = '\n' || c = '\r' || c = '\x0b' || c = '\x0c'

/-- Python `s.rstrip()`: remove trailing whitespace. -/
def pyRstrip (s : String) : String :=
  String.mk ((s.toList.reverse.dropWhile isPyWs).reverse)

/-- Python `s.strip()`: remove leading and trailing whitespace. -/
def pyStrip (s : String) : String :=
  String.mk (((s.toList.dropWhile isPyWs).reverse.dropWhile isPyWs).reverse)

/-- Python `s.split(None, 1)[0]` as used by Biopython to turn a FASTA
title into a record id: drop leading whitespace, then take the first
maximal run of non-whitespace characters (empty when `s` is blank). -/
def pyFirstWord (s : String) : String :=
  String.mk ((s.toList.dropWhile isPyWs).takeWhile (fun c => !isPyWs c))

/-- Python `s.replace(cs, "")` for a one-character pattern `cs`. -/
def removeChar (c : Char) (s : String) : String :=
  String.mk (s.toList.filter (fun d => d ≠ c))

/-- Python `"".join(parts)`: concatenation with no separator. -/
def strConcat (parts : List String) : String :=
  String.mk (parts.map String.toList).flatten

/-- Python `s[1:]` (drop the first character). -/
def strTail (s : String) : String :=
  String.mk (s.toList.drop 1)

/-- Python `line[0] == ">"` (also `line.strip().startswith(">")` once the
line has been stripped): the line is nonempty and its first character is
the FASTA record separator. -/
def headIsGt (s : String) : Bool :=
  match s.toList with
  | [] => false
  | c :: _ => c = '>'

/-- Python `filepath.name.endswith(".gz")`. -/
def endsWithGz (s : String) : Bool :=
  match s.toList.reverse with
  | 'z' :: 'g' :: '.' :: _ => true
  | _ => false

/-- The error taxonomy of `errors.py`: `FileProcessingError` and
`InvalidFormatError` both carry a message and the offending filepath;
the bare base-class `Bio2ParquetError` (raised by `cli._handle_empty_dataset`)
carries only a message. -/
inductive Err where
  | fileProcessing (message : String) (filepath : String)
  | invalidFormat (message : String) (filepath : String)
  | bio2parquet (message : String)
deriving DecidableEq, Repr

/-- What the filesystem holds at the input path: nothing, a non-regular
entry (e.g. a directory), or a regular file.  For a regular file,
`gzipValid` records whether gzip decompression of the raw bytes succeeds
(only consulted when the file name ends in `.gz`), and `lines` are the
decoded text lines. -/
inductive PathKind where
  | missing
  | notAFile
  | regular (gzipValid : Bool) (lines : List String)
deriving DecidableEq, Repr

/-- An input path together with what the filesystem holds there. -/
structure SourceFile where
  name : String
  kind : PathKind
deriving DecidableEq, Repr

/-- One FASTA record as yielded by `read_fasta_file`:
`{"header": record.id, "sequence": str(record.seq)}`. -/
structure FastaRecord where
  header : String
  sequence : String
deriving DecidableEq, Repr

/-- `fasta._validate_file_exists` / `csv._validate_file_exists`:
`FileProcessingError` when the path does not exist or is not a regular
file. -/
def validateFileExists (f : SourceFile) : Option Err :=
  match f.kind with
  | .missing => some (.fileProcessing ("Input file does not exist: " ++ f.name) f.name)
  | .notAFile => some (.fileProcessing ("Input path is not a file: " ++ f.name) f.name)
  | .regular _ _ => none

/-- `fasta._validate_fasta_content`: reads the first line; an empty read
(zero-byte file) is an error, and the first line, stripped, must start
with the record separator.  The handle is then rewound (`handle.seek(0)`),
so parsing below starts again from the full line list. -/
def validateFastaContent (lines : List String) (filepath : String) : Option Err :=
  match lines with
  | [] => some (.invalidFormat "File is empty: no FASTA records found." filepath)
  | l :: _ =>
    if headIsGt (pyStrip l) then none
    else some (.invalidFormat "Sequence data found before a header line" filepath)

/-- The sequence string Biopython builds for one record:
`"".join(lines).replace(" ", "").replace("\r", "")` applied to the
rstripped sequence lines (the rstrip happens as each line is
accumulated). -/
def seqJoinPy (acc : List String) : String :=
  removeChar '\r' (removeChar ' ' (strConcat acc))

/-- The main loop of Biopython's `SimpleFastaParser`, after the first
title has been found: accumulate rstripped sequence lines; each further
`>`-line closes the current `(title, sequence)` pair and opens the next
title; end of input closes the final pair. -/
def fastaBody (title : String) (acc : List String) : List String → List (String × String)
  | [] => [(title, seqJoinPy acc)]
  | l :: ls =>
    if headIsGt l then
      (title, seqJoinPy acc) :: fastaBody (pyRstrip (strTail l)) [] ls
    else
      fastaBody title (acc ++ [pyRstrip l]) ls

/-- Biopython's `SimpleFastaParser` over the whole line list: skip any
lines before the first `>`-line (yielding nothing when there is none),
then run the main loop. -/
def simpleFastaParse : List String → List (String × String)
  | [] => []
  | l :: ls =>
    if headIsGt l then fastaBody (pyRstrip (strTail l)) [] ls
    else simpleFastaParse ls

/-- The record loop of `read_fasta_file`: for each parsed pair Biopython
exposes `record.seq` (the joined sequence) and `record.id` (the first
whitespace-delimited word of the title); `_validate_record` rejects an
empty sequence, then an empty id, and otherwise the record is yielded.
Returns the records yielded before termination, paired with the error
that stopped the loop (if any). -/
def fastaYield (filepath : String) : List (String × String) → List FastaRecord × Option Err
  | [] => ([], none)
  | (t, s) :: rest =>
    if s = "" then ([], some (.invalidFormat "Sequence missing for header." filepath))
    else if pyFirstWord t = "" then
      ([], some (.invalidFormat "Header missing for sequence." filepath))
    else
      let step := fastaYield filepath rest
      (⟨pyFirstWord t, s⟩ :: step.1, step.2)

/-- The complete observable run of the `read_fasta_file` generator body:
existence check, stream selection (gzip errors for a corrupt `.gz`),
initial content validation, then the per-record loop.  The first
component lists the records yielded before the run ended; the second is
the error that ended it, if any. -/
def readFastaRun (f : SourceFile) : List FastaRecord × Option Err :=
  match validateFileExists f with
  | some e => ([], some e)
  | none =>
    match f.kind with
    | .missing => ([], none)
    | .notAFile => ([], none)
    | .regular gzipValid lines =>
      if endsWithGz f.name && !gzipValid then
        ([], some (.fileProcessing ("File is not a valid GZIP file: " ++ f.name) f.name))
      else
        match validateFastaContent lines f.name with
        | some e => ([], some e)
        | none => fastaYield f.name (simpleFastaParse lines)

/-- The state of the `read_fasta_file` generator object: either the body
has not started running, or it is suspended mid-loop with a list of
still-pending yields followed by an optional terminating error. -/
inductive FastaGen where
  | unstarted (f : SourceFile)
  | suspended (pending : List FastaRecord) (stop : Option Err)
deriving DecidableEq, Repr

/-- Calling `read_fasta_file(filepath)`.  The function body contains
`yield`, so in Python the call only creates a generator object and runs
none of the body — in particular none of the validation; hence the call
itself can never raise and is modelled as always returning the
unstarted generator. -/
def callReadFasta (f : SourceFile) : Except Err FastaGen :=
  .ok (.unstarted f)

/-- Requesting the next record from the generator (`next(it)`): on the
first request the body runs, performing all validation; afterwards the
remaining yields and the terminating error (if any) are delivered in
order.  Returns the yielded record and the successor state, `none` at
normal exhaustion, or the raised error. -/
def genNext : FastaGen → Except Err (Option (FastaRecord × FastaGen))
  | .unstarted f =>
    match readFastaRun f with
    | ([], some e) => .error e
    | ([], none) => .ok none
    | (r :: rs, stop) => .ok (some (r, .suspended rs stop))
  | .suspended [] (some e) => .error e
  | .suspended [] none => .ok none
  | .suspended (r :: rs) stop => .ok (some (r, .suspended rs stop))

/-- Python `range(0, stop, step)` for a positive step, in closed form:
the multiples of `step` below `stop`, of which there are
`ceil(stop / step)` (a zero step raises `ValueError` in Python; the
closed form then gives the empty range, and a zero step is never used
here). -/
def pyRange (stop step : Nat) : List Nat :=
  (List.range ((stop + step - 1) / step)).map (fun j => j * step)

/-- The chunking in `create_dataset_from_fasta` / `create_dataset_from_csv`:
`[records[i : i + chunk_size] for i in range(0, len(records), chunk_size)]`. -/
def chunkList (records : List α) (chunkSize : Nat) : List (List α) :=
  (pyRange records.length chunkSize).map (fun i => (records.drop i).take chunkSize)

/-- `fasta._process_chunk` (and identically `csv._process_chunk`): the
"parallel processing" applied to each chunk returns the chunk unchanged. -/
def processChunk (chunk : List α) : List α :=
  chunk

/-- The chunked stage: split into chunks, map `_process_chunk` over them
(`ProcessPoolExecutor.map` returns the results in the order of its
inputs, for every `max_workers` setting), then flatten. -/
def chunkProcessFlatten (records : List α) (chunkSize : Nat) : List α :=
  ((chunkList records chunkSize).map processChunk).flatten

/-- A cell value as held by a pandas DataFrame: verbatim text, or an
integer produced by dtype inference. -/
inductive Cell where
  | text (s : String)
  | num (n : Int)
deriving DecidableEq, Repr

/-- A Hugging Face `Dataset` as observable here: its features (column
name to dtype name) and its rows (each a record mapping column names to
values). -/
structure HfDataset where
  features : List (String × String)
  rows : List (List (String × Cell))
deriving DecidableEq, Repr

deriving instance DecidableEq for Except

/-- `str(value)` as applied by `datasets.Value("string").encode_example`
when a record value is materialized under a string feature. -/
def cellStr : Cell → String
  | .text s => s
  | .num n => toString n

/-- The row `{"header": ..., "sequence": ...}` a FASTA record contributes
to the dataset (both features are `Value("string")` and both values are
already strings, so encoding stores them verbatim). -/
def fastaRow (r : FastaRecord) : List (String × Cell) :=
  [("header", .text r.header), ("sequence", .text r.sequence)]

/-- The fixed features of `create_dataset_from_fasta`. -/
def fastaFeatures : List (String × String) :=
  [("header", "string"), ("sequence", "string")]

/-- `create_dataset_from_fasta`: existence check, full materialization of
`read_fasta_file` (any error it raises propagates), empty-record
shortcut, then the chunked identity stage and dataset construction.
`maxWorkers` mirrors the `max_workers` argument; it only sizes the
process pool and does not affect `executor.map`'s output order. -/
def createDatasetFromFasta (f : SourceFile) (chunkSize : Nat) (maxWorkers : Option Nat) :
    Except Err HfDataset :=
  match validateFileExists f with
  | some e => .error e
  | none =>
    match readFastaRun f with
    | (_, some e) => .error e
    | (records, none) =>
      let _ := maxWorkers
      if records.isEmpty then .ok ⟨fastaFeatures, []⟩
      else
        let allRecords := chunkProcessFlatten records chunkSize
        .ok ⟨fastaFeatures, allRecords.map fastaRow⟩

/-- `cli._handle_empty_dataset`: raises the base-class `Bio2ParquetError`
(a dataset-level, post-hoc check) when the materialized dataset has zero
rows. -/
def handleEmptyDataset (ds : HfDataset) : Option Err :=
  if ds.rows.length = 0 then
    some (.bio2parquet
      "The input file seems to be empty or could not be parsed correctly, resulting in an empty dataset.")
  else none

/-- `csv._validate_csv_content`: the first line must be a non-empty read
and must contain one of the delimiters `,`, `;`, tab; the handle is then
rewound. -/
def validateCsvContent (lines : List String) (filepath : String) : Option Err :=
  match lines with
  | [] => some (.invalidFormat "File is empty: no CSV records found." filepath)
  | l :: _ =>
    if l.toList.contains ',' || l.toList.contains ';' || l.toList.contains '\t' then none
    else some (.invalidFormat
      "File does not appear to be in CSV format (no valid delimiter found)" filepath)

/-- Splitting one CSV line into cells at commas (the fragment of
`pd.read_csv`'s default tokenization needed here: unquoted
comma-delimited cells). -/
def splitComma (s : String) : List String :=
  (s.toList.splitOn ',').map String.mk

/-- A cell is an unsigned integer literal (all ASCII digits, nonempty) —
the fragment of pandas' numeric dtype inference exercised here. -/
def isIntLit (s : String) : Bool :=
  !s.isEmpty && s.toList.all Char.isDigit

/-- Numeric value of a digits-only cell. -/
def intLitVal (s : String) : Int :=
  Int.ofNat (s.toList.foldl (fun acc c => acc * 10 + (c.toNat - Char.toNat '0')) 0)

/-- pandas infers an integer dtype for a column exactly when every cell
of the column parses as an integer. -/
def pdColIsInt (rawRows : List (List String)) (j : Nat) : Bool :=
  rawRows.all (fun r => isIntLit (r.getD j ""))

/-- One raw cell after pandas dtype inference for its column: an integer
value in an all-numeric column (so text such as `007` becomes the number
7), verbatim text otherwise. -/
def pdCell (rawRows : List (List String)) (j : Nat) (s : String) : Cell :=
  if pdColIsInt rawRows j then .num (intLitVal s) else .text s

/-- A pandas DataFrame as observable here: column names and rows of
inferred cell values. -/
structure PdFrame where
  columns : List String
  rows : List (List Cell)
deriving DecidableEq, Repr

/-- The fragment of `pd.read_csv` exercised by the embedding:
comma-delimited unquoted cells, the first line as the header row, blank
lines skipped (`skip_blank_lines` default), per-column integer dtype
inference. -/
def pdReadCsv (lines : List String) : PdFrame :=
  let nonblank := lines.filter (fun l => l ≠ "")
  let rawRows := (nonblank.drop 1).map splitComma
  ⟨splitComma (nonblank.headD ""),
   rawRows.map (fun r => r.mapIdx (fun j s => pdCell rawRows j s))⟩

/-- `csv.read_csv_file`: existence check, gzip handling, initial content
validation, then `pd.read_csv`. -/
def readCsvFile (f : SourceFile) : Except Err PdFrame :=
  match validateFileExists f with
  | some e => .error e
  | none =>
    match f.kind with
    | .missing => .error (.fileProcessing "unreachable" f.name)
    | .notAFile => .error (.fileProcessing "unreachable" f.name)
    | .regular gzipValid lines =>
      if endsWithGz f.name && !gzipValid then
        .error (.fileProcessing ("File is not a valid GZIP file: " ++ f.name) f.name)
      else
        match validateCsvContent lines f.name with
        | some e => .error e
        | none => .ok (pdReadCsv lines)

/-- `df.to_dict("records")`: each row as a mapping from column name to
cell value. -/
def frameRecords (df : PdFrame) : List (List (String × Cell)) :=
  df.rows.map (fun r => df.columns.zip r)

/-- `Dataset.from_generator` row encoding under all-string features:
`Value("string").encode_example` applies `str(value)` to every cell. -/
def encodeRowString (row : List (String × Cell)) : List (String × Cell) :=
  row.map (fun cv => (cv.1, .text (cellStr cv.2)))

/-- `csv.create_dataset_from_csv`: existence check, `read_csv_file`
(errors propagate), and then either the `df.empty` shortcut —
`Dataset.from_dict` over empty columns, whose inferred dtype is pyarrow's
null type, not string — or all-string features over the chunked identity
stage. -/
def createDatasetFromCsv (f : SourceFile) (chunkSize : Nat) (maxWorkers : Option Nat) :
    Except Err HfDataset :=
  match validateFileExists f with
  | some e => .error e
  | none =>
    match readCsvFile f with
    | .error e => .error e
    | .ok df =>
      let _ := maxWorkers
      if df.rows.isEmpty then
        .ok ⟨df.columns.map (fun c => (c, "null")), []⟩
      else
        let allRecords := chunkProcessFlatten (frameRecords df) chunkSize
        .ok ⟨df.columns.map (fun c => (c, "string")), allRecords.map encodeRowString⟩

/-- A string that is nonempty and contains no Python whitespace
character.  Well-formedness of FASTA lines below is phrased with this:
such lines are unchanged by `rstrip`, by `replace(" ", "")` /
`replace("\r", "")`, and by first-word extraction. -/
def noWsStr (s : String) : Bool :=
  !s.isEmpty && s.toList.all (fun c => !isPyWs c)

theorem dropWhileLenLe (p : α → Bool) (l : List α) : (l.dropWhile p).length ≤ l.length := by
  induction l with
  | nil => simp [List.dropWhile]
  | cons a l ih =>
    by_cases h : p a
    · simp only [List.dropWhile, h, List.length_cons]
      omega
    · simp [List.dropWhile, h]

/-- Well-formedness of a FASTA line list that starts at a record
boundary: a repetition of groups, each a `>` header line whose title (the
text after `>`) is nonempty without whitespace, followed by at least one
sequence line, every sequence line nonempty without whitespace. -/
def wfGroups : List String → Bool
  | [] => true
  | l :: ls =>
    headIsGt l && noWsStr (strTail l) &&
    (let seqL := ls.takeWhile (fun x => !headIsGt x)
     !seqL.isEmpty && seqL.all noWsStr) &&
    wfGroups (ls.dropWhile (fun x => !headIsGt x))
termination_by lines => lines.length
decreasing_by
  rename List String => ls
  have h := dropWhileLenLe (fun x => !headIsGt x) ls
  simp only [List.length_cons]
  omega

/-- A well-formed FASTA file: nonempty, starting with a header line, and
made of well-formed records. -/
def wfFasta (lines : List String) : Bool :=
  match lines with
  | [] => false
  | l :: _ => headIsGt l && wfGroups lines

/-- The expected output stated by the specification: one record per
header line, in file order; the record's header is everything after the
`>` separator on its header line, and its sequence is the concatenation,
with no separator, of the sequence lines wrapped under that header. -/
def specRecords : List String → List FastaRecord
  | [] => []
  | l :: ls =>
    if headIsGt l then
      ⟨strTail l, strConcat (ls.takeWhile (fun x => !headIsGt x))⟩ ::
        specRecords (ls.dropWhile (fun x => !headIsGt x))
    else specRecords ls
termination_by lines => lines.length
decreasing_by
  all_goals simp only [List.length_cons]
  · rename List String => ls
    have h := dropWhileLenLe (fun x => !headIsGt x) ls
    omega
  · omega

theorem mkToList (s : String) : String.mk s.toList = s := by
  cases s
  rfl

theorem mkEqEmptyIff (l : List Char) : String.mk l = "" ↔ l = [] := by
  constructor
  · intro h
    have := congrArg String.toList h
    simpa using this
  · intro h
    subst h
    rfl

theorem dropWhileAllNeg (p : α → Bool) (l : List α) (h : ∀ a ∈ l, p a = false) :
    l.dropWhile p = l := by
  cases l with
  | nil => rfl
  | cons a l => simp [List.dropWhile, h a (by simp)]

/-- A string all of whose characters are non-whitespace is unchanged by
`rstrip`. -/
theorem pyRstripNoWs (s : String) (h : ∀ c ∈ s.toList, isPyWs c = false) :
    pyRstrip s = s := by
  unfold pyRstrip
  rw [dropWhileAllNeg isPyWs s.toList.reverse (fun c hc => h c (List.mem_reverse.mp hc))]
  rw [List.reverse_reverse, mkToList]

/-- A string all of whose characters are non-whitespace is unchanged by
`strip`. -/
theorem pyStripNoWs (s : String) (h : ∀ c ∈ s.toList, isPyWs c = false) :
    pyStrip s = s := by
  unfold pyStrip
  rw [dropWhileAllNeg isPyWs s.toList (fun c hc => h c hc)]
  rw [dropWhileAllNeg isPyWs s.toList.reverse (fun c hc => h c (List.mem_reverse.mp hc))]
  rw [List.reverse_reverse, mkToList]

/-- A string all of whose characters are non-whitespace is its own first
word. -/
theorem pyFirstWordNoWs (s : String) (h : ∀ c ∈ s.toList, isPyWs c = false) :
    pyFirstWord s = s := by
  unfold pyFirstWord
  rw [dropWhileAllNeg isPyWs s.toList (fun c hc => h c hc)]
  rw [List.takeWhile_eq_self_iff.mpr (by intro c hc; simp [h c hc]), mkToList]

theorem removeCharNoOp (c : Char) (s : String) (h : ∀ d ∈ s.toList, d ≠ c) :
    removeChar c s = s := by
  unfold removeChar
  rw [List.filter_eq_self.mpr (by intro d hd; simpa using h d hd), mkToList]

theorem noWsStrSpec (s : String) (h : noWsStr s = true) :
    s ≠ "" ∧ ∀ c ∈ s.toList, isPyWs c = false := by
  unfold noWsStr at h
  simp only [Bool.and_eq_true, List.all_eq_true, Bool.not_eq_true'] at h
  refine ⟨?_, fun c hc => h.2 c hc⟩
  intro he
  subst he
  exact absurd h.1 (by decide)

theorem strConcatToList (parts : List String) :
    (strConcat parts).toList = (parts.map String.toList).flatten := rfl

/-- Concatenating strings that are all nonempty and whitespace-free gives
back the same string under the Biopython joining (the space and carriage
return removals do nothing). -/
theorem seqJoinPyNoWs (parts : List String) (h : ∀ s ∈ parts, noWsStr s = true) :
    seqJoinPy parts = strConcat parts := by
  have hall : ∀ c ∈ (strConcat parts).toList, isPyWs c = false := by
    rw [strConcatToList]
    intro c hc
    rw [List.mem_flatten] at hc
    obtain ⟨l, hl, hcl⟩ := hc
    rw [List.mem_map] at hl
    obtain ⟨s, hs, rfl⟩ := hl
    exact (noWsStrSpec s (h s hs)).2 c hcl
  have h1 : ∀ d ∈ (strConcat parts).toList, d ≠ ' ' := by
    intro d hd hde
    have hp := hall d hd
    rw [hde] at hp
    exact absurd hp (by decide)
  have h2 : ∀ d ∈ (strConcat parts).toList, d ≠ '\r' := by
    intro d hd hde
    have hp := hall d hd
    rw [hde] at hp
    exact absurd hp (by decide)
  unfold seqJoinPy
  rw [removeCharNoOp ' ' (strConcat parts) h1, removeCharNoOp '\r' (strConcat parts) h2]

theorem strConcatConsNeEmpty (s : String) (rest : List String) (h : s ≠ "") :
    strConcat (s :: rest) ≠ "" := by
  intro he
  have h2 : (strConcat (s :: rest)).toList = [] := by rw [he]; rfl
  rw [strConcatToList] at h2
  simp only [List.map_cons, List.flatten_cons, List.append_eq_nil] at h2
  exact h (by rw [← mkToList s, h2.1])

/-- A header line whose title is whitespace-free consists entirely of
non-whitespace characters. -/
theorem headerLineNoWs (l : String) (h1 : headIsGt l = true)
    (h2 : noWsStr (strTail l) = true) : ∀ c ∈ l.toList, isPyWs c = false := by
  unfold headIsGt at h1
  intro c hc
  rcases hl : l.toList with _ | ⟨d, rest⟩
  · rw [hl] at hc
    simp at hc
  · rw [hl] at h1
    simp only [decide_eq_true_eq] at h1
    subst h1
    have hrest : (strTail l).toList = rest := by
      unfold strTail
      rw [hl]
      rfl
    rw [hl] at hc
    rcases List.mem_cons.mp hc with hc1 | hc2
    · subst hc1
      decide
    · exact (noWsStrSpec _ h2).2 c (by rw [hrest]; exact hc2)

theorem headIsGtMkCons (xs : List Char) : headIsGt (String.mk ('>' :: xs)) = true := by
  simp [headIsGt]

/-- Stripping a header line leaves a header line: `strip` cannot remove
the leading `>` because `>` is not whitespace. -/
theorem headIsGtPyStrip (l : String) (h : headIsGt l = true) :
    headIsGt (pyStrip l) = true := by
  unfold headIsGt at h
  rcases hl : l.toList with _ | ⟨d, rest⟩
  · rw [hl] at h
    simp at h
  · rw [hl] at h
    simp only [decide_eq_true_eq] at h
    subst h
    unfold pyStrip
    rw [hl]
    rw [List.dropWhile_cons_of_neg (by decide)]
    rw [show ('>' :: rest).reverse = rest.reverse ++ ['>'] by simp]
    rw [List.dropWhile_append]
    by_cases he : (rest.reverse.dropWhile isPyWs).isEmpty
    · rw [if_pos he]
      rw [List.dropWhile_cons_of_neg (by decide)]
      exact headIsGtMkCons []
    · rw [if_neg he]
      rw [List.reverse_append]
      simp only [List.reverse_cons, List.reverse_nil, List.nil_append, List.singleton_append]
      exact headIsGtMkCons _

/-- At a record boundary the parser's main loop closes the current pair
and continues exactly as a fresh parse of the remaining lines, provided
the remaining lines are empty or begin with a header line. -/
theorem fastaBodyAtBoundary (title : String) (acc : List String) (tl : List String)
    (htl : tl = [] ∨ headIsGt (tl.headD "") = true) :
    fastaBody title acc tl = (title, seqJoinPy acc) :: simpleFastaParse tl := by
  rcases htl with h | h
  · subst h
    rfl
  · rcases tl with _ | ⟨t, tl2⟩
    · rfl
    · simp only [List.headD_cons] at h
      simp [fastaBody, simpleFastaParse, h]

/-- Main correspondence for the parser loop: running `fastaBody` over a
well-formed remainder (the tail of the current record's sequence lines,
then whole well-formed records, then an arbitrary continuation starting
at a header line) produces the current pair followed by the pairs of the
well-formed records, followed by a fresh parse of the continuation. -/
theorem fastaBodyMain (n : Nat) :
    ∀ (ls : List String) (title : String) (acc : List String) (tl : List String),
    ls.length ≤ n →
    (∀ s ∈ ls.takeWhile (fun x => !headIsGt x), noWsStr s = true) →
    wfGroups (ls.dropWhile (fun x => !headIsGt x)) = true →
    (tl = [] ∨ headIsGt (tl.headD "") = true) →
    fastaBody title acc (ls ++ tl) =
      (title, seqJoinPy (acc ++ ls.takeWhile (fun x => !headIsGt x))) ::
        ((specRecords (ls.dropWhile (fun x => !headIsGt x))).map
            (fun r => (r.header, r.sequence)) ++ simpleFastaParse tl) := by
  induction n with
  | zero =>
    intro ls title acc tl hlen h1 h2 htl
    have hnil : ls = [] := List.length_eq_zero.mp (Nat.le_zero.mp hlen)
    subst hnil
    simp only [List.takeWhile_nil, List.dropWhile_nil, List.append_nil, List.nil_append]
    rw [specRecords]
    simp only [List.map_nil, List.nil_append]
    exact fastaBodyAtBoundary title acc tl htl
  | succ n ih =>
    intro ls title acc tl hlen h1 h2 htl
    rcases ls with _ | ⟨l, ls2⟩
    · simp only [List.takeWhile_nil, List.dropWhile_nil, List.append_nil, List.nil_append]
      rw [specRecords]
      simp only [List.map_nil, List.nil_append]
      exact fastaBodyAtBoundary title acc tl htl
    · by_cases hl : headIsGt l
      · -- the current record ends here; a new well-formed group begins
        rw [List.dropWhile_cons_of_neg (by simp [hl])] at h2
        rw [List.takeWhile_cons_of_neg (by simp [hl]),
          List.dropWhile_cons_of_neg (by simp [hl])]
        rw [wfGroups] at h2
        simp only [Bool.and_eq_true, Bool.not_eq_true', List.all_eq_true] at h2
        obtain ⟨⟨⟨hhead, htitle⟩, hseqne, hseqall⟩, hrest⟩ := h2
        have hstep : fastaBody title acc ((l :: ls2) ++ tl) =
            (title, seqJoinPy acc) ::
              fastaBody (pyRstrip (strTail l)) [] (ls2 ++ tl) := by
          simp [fastaBody, hl]
        rw [hstep]
        rw [pyRstripNoWs (strTail l) (noWsStrSpec _ htitle).2]
        rw [ih ls2 (strTail l) [] tl (by simp at hlen; omega)
          (fun s hs => hseqall s hs) hrest htl]
        rw [specRecords]
        simp only [hl, if_pos]
        simp only [List.map_cons, List.append_assoc, List.nil_append, List.append_nil,
          List.cons_append]
        rw [seqJoinPyNoWs (ls2.takeWhile (fun x => !headIsGt x)) (fun s hs => hseqall s hs)]
      · -- a sequence line of the current record
        rw [List.takeWhile_cons_of_pos (by simp [hl])] at h1
        rw [List.dropWhile_cons_of_pos (by simp [hl])] at h2
        rw [List.takeWhile_cons_of_pos (by simp [hl]),
          List.dropWhile_cons_of_pos (by simp [hl])]
        have hlno : noWsStr l = true := h1 l (by simp)
        have hstep : fastaBody title acc ((l :: ls2) ++ tl) =
            fastaBody title (acc ++ [pyRstrip l]) (ls2 ++ tl) := by
          simp [fastaBody, hl]
        rw [hstep]
        rw [pyRstripNoWs l (noWsStrSpec _ hlno).2]
        rw [ih ls2 title (acc ++ [l]) tl (by simp at hlen; omega)
          (fun s hs => h1 s (by simp [hs])) h2 htl]
        simp only [List.append_assoc, List.singleton_append]

/-- `SimpleFastaParser` over well-formed records followed by an arbitrary
continuation that is empty or starts at a header line: the records'
pairs, then a fresh parse of the continuation. -/
theorem simpleFastaParseAppend (gs tl : List String)
    (hwf : wfGroups gs = true)
    (htl : tl = [] ∨ headIsGt (tl.headD "") = true) :
    simpleFastaParse (gs ++ tl) =
      (specRecords gs).map (fun r => (r.header, r.sequence)) ++ simpleFastaParse tl := by
  rcases gs with _ | ⟨g, gs2⟩
  · rw [specRecords]
    simp
  · rw [wfGroups] at hwf
    simp only [Bool.and_eq_true, Bool.not_eq_true', List.all_eq_true] at hwf
    obtain ⟨⟨⟨hhead, htitle⟩, hseqne, hseqall⟩, hrest⟩ := hwf
    have hstep : simpleFastaParse ((g :: gs2) ++ tl) =
        fastaBody (pyRstrip (strTail g)) [] (gs2 ++ tl) := by
      simp [simpleFastaParse, hhead]
    rw [hstep, pyRstripNoWs _ (noWsStrSpec _ htitle).2]
    rw [fastaBodyMain gs2.length gs2 (strTail g) [] tl le_rfl hseqall hrest htl]
    rw [specRecords]
    simp only [hhead, if_pos, List.map_cons, List.nil_append, List.cons_append]
    rw [seqJoinPyNoWs _ hseqall]

/-- On a fully well-formed FASTA file the parser produces exactly the
pairs the specification expects. -/
theorem simpleFastaParseWf (lines : List String) (h : wfFasta lines = true) :
    simpleFastaParse lines =
      (specRecords lines).map (fun r => (r.header, r.sequence)) := by
  unfold wfFasta at h
  rcases lines with _ | ⟨l, ls⟩
  · simp at h
  · simp only [Bool.and_eq_true] at h
    have h3 := simpleFastaParseAppend (l :: ls) [] h.2 (Or.inl rfl)
    simpa [show simpleFastaParse [] = [] from rfl] using h3

/-- The record loop accepts every pair whose header is nonempty without
whitespace and whose sequence is nonempty, yielding all records and no
error. -/
theorem fastaYieldAllGood (fp : String) (recs : List FastaRecord)
    (h : ∀ r ∈ recs, noWsStr r.header = true ∧ r.sequence ≠ "") :
    fastaYield fp (recs.map (fun r => (r.header, r.sequence))) = (recs, none) := by
  induction recs with
  | nil => rfl
  | cons r rest ih =>
    obtain ⟨hh, hs⟩ := h r (by simp)
    have hfw : pyFirstWord r.header = r.header := pyFirstWordNoWs _ (noWsStrSpec _ hh).2
    simp only [List.map_cons, fastaYield]
    rw [if_neg hs, if_neg (by rw [hfw]; exact (noWsStrSpec _ hh).1)]
    rw [ih (fun x hx => h x (by simp [hx]))]
    simp [hfw]

/-- Every record of the specification decomposition of well-formed
groups has a nonempty whitespace-free header and a nonempty sequence. -/
theorem specRecordsGood (n : Nat) :
    ∀ gs : List String, gs.length ≤ n → wfGroups gs = true →
    ∀ r ∈ specRecords gs, noWsStr r.header = true ∧ r.sequence ≠ "" := by
  induction n with
  | zero =>
    intro gs hlen _ r hr
    have : gs = [] := List.length_eq_zero.mp (Nat.le_zero.mp hlen)
    subst this
    rw [specRecords] at hr
    simp at hr
  | succ n ih =>
    intro gs hlen hwf r hr
    rcases gs with _ | ⟨g, gs2⟩
    · rw [specRecords] at hr
      simp at hr
    · rw [wfGroups] at hwf
      simp only [Bool.and_eq_true, Bool.not_eq_true', List.all_eq_true] at hwf
      obtain ⟨⟨⟨hhead, htitle⟩, hseqne, hseqall⟩, hrest⟩ := hwf
      rw [specRecords] at hr
      simp only [hhead, if_pos, List.mem_cons] at hr
      rcases hr with hr | hr
      · subst hr
        refine ⟨htitle, ?_⟩
        rcases hq : gs2.takeWhile (fun x => !headIsGt x) with _ | ⟨s, srest⟩
        · rw [hq] at hseqne
          simp at hseqne
        · have hsne : s ≠ "" := (noWsStrSpec s (hseqall s (by rw [hq]; simp))).1
          exact strConcatConsNeEmpty s srest hsne
      · have hlen2 : (gs2.dropWhile (fun x => !headIsGt x)).length ≤ n := by
          have := dropWhileLenLe (fun x => !headIsGt x) gs2
          simp only [List.length_cons] at hlen
          omega
        exact ih _ hlen2 hrest r hr

theorem wfGroupsNilEq : wfGroups [] = true := by rw [wfGroups]

theorem wfGroupsConsEq (l : String) (ls : List String) :
    wfGroups (l :: ls) =
      (headIsGt l && noWsStr (strTail l) &&
       (!(ls.takeWhile (fun x => !headIsGt x)).isEmpty &&
         (ls.takeWhile (fun x => !headIsGt x)).all noWsStr) &&
       wfGroups (ls.dropWhile (fun x => !headIsGt x))) := by
  rw [wfGroups]

theorem specRecordsNilEq : specRecords [] = [] := by rw [specRecords]

theorem specRecordsConsEq (l : String) (ls : List String) :
    specRecords (l :: ls) =
      (if headIsGt l then
        ⟨strTail l, strConcat (ls.takeWhile (fun x => !headIsGt x))⟩ ::
          specRecords (ls.dropWhile (fun x => !headIsGt x))
      else specRecords ls) := by
  rw [specRecords]

/-- Reduction of `readFastaRun` on a regular file whose stream opens
cleanly (not a corrupt `.gz`). -/
theorem readFastaRunRegularEq (name : String) (gok : Bool) (lines : List String)
    (hgz : (endsWithGz name && !gok) = false) :
    readFastaRun ⟨name, .regular gok lines⟩ =
      (match validateFastaContent lines name with
       | some e => ([], some e)
       | none => fastaYield name (simpleFastaParse lines)) := by
  unfold readFastaRun validateFileExists
  simp [hgz]

/-- C1.  For every well-formed FASTA file, `read_fasta_file` yields one
record per header line, in file order, whose sequence is the
concatenation of that record's wrapped sequence lines with no separator
(`specRecords` states exactly this expected decomposition), and the run
ends without error.  The concrete instance in the claim is the witness
below. -/
theorem c1_read_fasta_wellformed (name : String) (lines : List String)
    (h : wfFasta lines = true) :
    readFastaRun ⟨name, .regular true lines⟩ = (specRecords lines, none) := by
  rcases hl : lines with _ | ⟨l, ls⟩
  · rw [hl] at h
    simp [wfFasta] at h
  · rw [hl] at h
    have h2 := h
    unfold wfFasta at h2
    simp only [Bool.and_eq_true] at h2
    obtain ⟨hhead, hwfg⟩ := h2
    rw [readFastaRunRegularEq name true (l :: ls) (by simp)]
    have hval : validateFastaContent (l :: ls) name = none := by
      simp [validateFastaContent, headIsGtPyStrip l hhead]
    rw [hval]
    rw [simpleFastaParseWf (l :: ls) h]
    exact fastaYieldAllGood name (specRecords (l :: ls))
      (specRecordsGood (l :: ls).length (l :: ls) le_rfl hwfg)

/-- Witness for C1 at the end-to-end input of the claim:
the file `">A\nXX\nYY\n>B\nZZ\n"` is well-formed and yields exactly
`{header := "A", sequence := "XXYY"}` then `{header := "B", sequence := "ZZ"}`. -/
theorem c1_read_fasta_wellformed_witness :
    wfFasta [">A", "XX", "YY", ">B", "ZZ"] = true ∧
    readFastaRun ⟨"in.fasta", .regular true [">A", "XX", "YY", ">B", "ZZ"]⟩ =
      ([⟨"A", "XXYY"⟩, ⟨"B", "ZZ"⟩], none) := by
  have h : wfFasta [">A", "XX", "YY", ">B", "ZZ"] = true := by
    simp +decide [wfFasta, wfGroupsConsEq, wfGroupsNilEq]
  refine ⟨h, ?_⟩
  rw [c1_read_fasta_wellformed "in.fasta" _ h]
  simp +decide [specRecordsConsEq, specRecordsNilEq]

theorem ceilDivStep (k L : Nat) (hk : 0 < k) (hL : 0 < L) :
    (L + k - 1) / k = (L - k + k - 1) / k + 1 := by
  rcases Nat.lt_or_ge k L with h | h
  · have h1 : L - k + k - 1 = L - 1 := by omega
    have h2 : L + k - 1 = (L - 1) + k := by omega
    rw [h1, h2, Nat.add_div_right _ hk]
  · have h1 : L - k = 0 := by omega
    have h2 : (0 + k - 1) / k = 0 := Nat.div_eq_of_lt (by omega)
    rw [h1, h2]
    exact Nat.div_eq_of_lt_le (by omega) (by omega)

/-- Unfolding of the Python range used by the chunking: for a nonempty
range it is `0` followed by the shifted range over the remainder. -/
theorem pyRangeStep (L k : Nat) (hk : 0 < k) (hL : 0 < L) :
    pyRange L k = 0 :: (pyRange (L - k) k).map (fun j => j + k) := by
  unfold pyRange
  rw [ceilDivStep k L hk hL, List.range_succ_eq_map]
  simp only [List.map_cons, Nat.zero_mul, List.map_map]
  have hfun : ((fun j => j * k) ∘ Nat.succ) = ((fun j => j + k) ∘ fun j => j * k) := by
    funext j
    simp [Function.comp, Nat.succ_mul]
  rw [hfun]

theorem pyRangeZero (k : Nat) (hk : 0 < k) : pyRange 0 k = [] := by
  unfold pyRange
  rw [Nat.div_eq_of_lt (by omega)]
  rfl

/-- Flattening the `chunk_size`-slices of a list gives back the list. -/
theorem chunksFlatten (k : Nat) (hk : 0 < k) (n : Nat) :
    ∀ xs : List α, xs.length ≤ n →
    ((pyRange xs.length k).map (fun i => (xs.drop i).take k)).flatten = xs := by
  induction n with
  | zero =>
    intro xs h
    have hx : xs = [] := List.length_eq_zero.mp (by omega)
    subst hx
    simp [pyRangeZero k hk]
  | succ n ih =>
    intro xs h
    by_cases hx : xs.length = 0
    · have hx2 : xs = [] := List.length_eq_zero.mp hx
      subst hx2
      simp [pyRangeZero k hk]
    · rw [pyRangeStep xs.length k hk (by omega)]
      simp only [List.map_cons, List.flatten_cons, List.drop_zero, List.map_map]
      have hcomp : ((fun i => (xs.drop i).take k) ∘ (fun j => j + k)) =
          fun i => ((xs.drop k).drop i).take k := by
        funext i
        simp only [Function.comp_apply, List.drop_drop]
        rw [Nat.add_comm k i]
      rw [hcomp]
      have hlen : xs.length - k = (xs.drop k).length := by simp
      rw [hlen, ih (xs.drop k) (by simp; omega)]
      exact List.take_append_drop k xs

/-- The chunked "parallel processing" stage is the identity on the
record list for every positive chunk size. -/
theorem chunkProcessFlattenId (records : List α) (chunkSize : Nat) (h : 1 ≤ chunkSize) :
    chunkProcessFlatten records chunkSize = records := by
  unfold chunkProcessFlatten chunkList processChunk
  rw [show (fun chunk : List α => chunk) = id from rfl, List.map_id]
  exact chunksFlatten chunkSize h records.length records le_rfl

/-- C9.  For every FASTA file that parses successfully, every positive
chunk size, and every `max_workers` setting, the chunked "parallel
processing" stage of `create_dataset_from_fasta` is an identity
transform: the dataset rows are exactly the records yielded by
`read_fasta_file`, in order, independent of `chunkSize` and
`maxWorkers`. -/
theorem c9_chunked_processing_identity (f : SourceFile) (records : List FastaRecord)
    (chunkSize : Nat) (maxWorkers : Option Nat)
    (hrun : readFastaRun f = (records, none)) (hcs : 1 ≤ chunkSize) :
    createDatasetFromFasta f chunkSize maxWorkers =
      .ok ⟨fastaFeatures, records.map fastaRow⟩ := by
  have hval : validateFileExists f = none := by
    rcases f with ⟨name, kind⟩
    rcases kind with _ | _ | ⟨gok, lines⟩
    · exact absurd hrun (by simp [readFastaRun, validateFileExists])
    · exact absurd hrun (by simp [readFastaRun, validateFileExists])
    · rfl
  unfold createDatasetFromFasta
  rw [hval, hrun]
  by_cases hrec : records.isEmpty
  · have : records = [] := List.isEmpty_iff.mp hrec
    subst this
    simp
  · simp only [hrec, Bool.false_eq_true, if_false]
    rw [chunkProcessFlattenId records chunkSize hcs]

/-- Witness for C9: a two-line FASTA file, chunk size 1, an explicit
worker count. -/
theorem c9_chunked_processing_identity_witness :
    readFastaRun ⟨"w.fasta", .regular true [">A", "XX"]⟩ = ([⟨"A", "XX"⟩], none) ∧
    1 ≤ 1 ∧
    createDatasetFromFasta ⟨"w.fasta", .regular true [">A", "XX"]⟩ 1 (some 4) =
      .ok ⟨fastaFeatures, [FastaRecord.mk "A" "XX"].map fastaRow⟩ :=
  ⟨by decide, le_rfl,
    c9_chunked_processing_identity ⟨"w.fasta", .regular true [">A", "XX"]⟩
      [⟨"A", "XX"⟩] 1 (some 4) (by decide) le_rfl⟩

/-- C6.  A zero-byte input fails with the structural
`InvalidFormatError` "File is empty: no FASTA records found." before any
record is yielded, and that error is distinct from every dataset-level
empty-result error the CLI's `_handle_empty_dataset` can raise. -/
theorem c6_empty_file_structural_error (name : String) :
    readFastaRun ⟨name, .regular true []⟩ =
      ([], some (Err.invalidFormat "File is empty: no FASTA records found." name)) ∧
    ∀ ds e, handleEmptyDataset ds = some e →
      Err.invalidFormat "File is empty: no FASTA records found." name ≠ e := by
  constructor
  · rw [readFastaRunRegularEq name true [] (by simp)]
    rfl
  · intro ds e he
    unfold handleEmptyDataset at he
    by_cases hz : ds.rows.length = 0
    · rw [if_pos hz] at he
      have : e = Err.bio2parquet
          "The input file seems to be empty or could not be parsed correctly, resulting in an empty dataset." :=
        (Option.some.inj he).symm
      subst this
      intro hcontra
      exact Err.noConfusion hcontra
    · rw [if_neg hz] at he
      exact absurd he (by simp)

/-- The record loop can only stop on one of its two validation errors:
it never raises the initial-content error "Sequence data found before a
header line". -/
theorem fastaYieldSndCases (fp : String) (pairs : List (String × String)) :
    (fastaYield fp pairs).2 = none ∨
    (fastaYield fp pairs).2 = some (.invalidFormat "Sequence missing for header." fp) ∨
    (fastaYield fp pairs).2 = some (.invalidFormat "Header missing for sequence." fp) := by
  induction pairs with
  | nil => exact Or.inl rfl
  | cons p rest ih =>
    obtain ⟨t, s⟩ := p
    by_cases hs : s = ""
    · exact Or.inr (Or.inl (by simp [fastaYield, hs]))
    · by_cases ht : pyFirstWord t = ""
      · exact Or.inr (Or.inr (by simp [fastaYield, hs, ht]))
      · simpa [fastaYield, hs, ht] using ih

/-- C3 counterexample.  The claim exempts files whose first non-blank
line is a header even when blank lines precede it; but the code
validates only the literal first line, so a file beginning with a blank
line fails with "Sequence data found before a header line" although its
first non-blank line is the header `>A`. -/
theorem c3_counterexample_blank_line_before_header :
    readFastaRun ⟨"lead.fasta", .regular true ["", ">A", "XX"]⟩ =
      ([], some (Err.invalidFormat "Sequence data found before a header line" "lead.fasta")) := by
  decide

/-- C3 amended: the check applies to the literal first line of the file
(stripped), not to the first non-blank line.  (a) If the file opens
cleanly and its first line does not strip to text starting with `>`, the
run fails with "Sequence data found before a header line" before
yielding any record.  (b) If the first line does strip to text starting
with `>`, that error is never raised. -/
theorem c3_amended_first_line_header_check (name : String) (lines : List String)
    (gok : Bool) (hne : lines ≠ []) :
    (gok = true → headIsGt (pyStrip (lines.headD "")) = false →
      readFastaRun ⟨name, .regular gok lines⟩ =
        ([], some (Err.invalidFormat "Sequence data found before a header line" name))) ∧
    (headIsGt (pyStrip (lines.headD "")) = true →
      (readFastaRun ⟨name, .regular gok lines⟩).2 ≠
        some (Err.invalidFormat "Sequence data found before a header line" name)) := by
  rcases lines with _ | ⟨l, ls⟩
  · exact absurd rfl hne
  · simp only [List.headD_cons]
    constructor
    · intro hg hfail
      subst hg
      rw [readFastaRunRegularEq name true (l :: ls) (by simp)]
      simp [validateFastaContent, hfail]
    · intro hok
      by_cases hgz : (endsWithGz name && !gok) = true
      · unfold readFastaRun validateFileExists
        simp [hgz]
      · rw [readFastaRunRegularEq name gok (l :: ls) (by simpa using hgz)]
        have hval : validateFastaContent (l :: ls) name = none := by
          simp [validateFastaContent, hok]
        rw [hval]
        rcases fastaYieldSndCases name (simpleFastaParse (l :: ls)) with hc | hc | hc <;>
          rw [hc] <;> simp

/-- Witness for C3 amended, part (a) at the test fixture
`no_header.fasta` (`"ATGC\nCGTA"`). -/
theorem c3_amended_first_line_header_check_witness :
    (["ATGC", "CGTA"] : List String) ≠ [] ∧
    readFastaRun ⟨"no_header.fasta", .regular true ["ATGC", "CGTA"]⟩ =
      ([], some (Err.invalidFormat "Sequence data found before a header line" "no_header.fasta")) :=
  ⟨by decide,
    (c3_amended_first_line_header_check "no_header.fasta" ["ATGC", "CGTA"] true
      (by decide)).1 rfl (by decide)⟩

theorem noWsStrIntro (s : String) (h1 : s ≠ "") (h2 : ∀ c ∈ s.toList, isPyWs c = false) :
    noWsStr s = true := by
  unfold noWsStr
  simp only [Bool.and_eq_true, Bool.not_eq_true', List.all_eq_true, Bool.not_eq_true]
  refine ⟨?_, fun c hc => by simp [h2 c hc]⟩
  cases he : s.isEmpty
  · rfl
  · exact absurd ((String.isEmpty_iff s).mp he) h1

theorem strConcatSingleton (s : String) : strConcat [s] = s := by
  unfold strConcat
  simp [mkToList]

/-- C4 counterexample.  For the header line `>id some description` the
yielded header is `id` (Biopython's `record.id`, the first
whitespace-delimited word of the title), not the verbatim remainder
`id some description` the claim requires. -/
theorem c4_counterexample_header_truncated_at_space :
    readFastaRun ⟨"d.fasta", .regular true [">id some description", "XX"]⟩ =
      ([⟨"id", "XX"⟩], none) ∧ ("id" : String) ≠ "id some description" := by
  exact ⟨by decide, by decide⟩

/-- C4 amended: the header field yielded for a record is the first
whitespace-delimited word of the rstripped text after the `>` separator
(so punctuation and secondary delimiters inside that word survive
verbatim, but anything from the first whitespace on is dropped).  Stated
for a one-record file with an arbitrary title. -/
theorem c4_amended_header_is_first_word (name : String) (tl sl : List Char)
    (hseq : ∀ c ∈ sl, isPyWs c = false) (hsne : sl ≠ [])
    (hnh : headIsGt (String.mk sl) = false)
    (hid : pyFirstWord (pyRstrip (String.mk tl)) ≠ "") :
    readFastaRun ⟨name, .regular true [String.mk ('>' :: tl), String.mk sl]⟩ =
      ([⟨pyFirstWord (pyRstrip (String.mk tl)), String.mk sl⟩], none) := by
  rw [readFastaRunRegularEq name true _ (by simp)]
  have hval : validateFastaContent [String.mk ('>' :: tl), String.mk sl] name = none := by
    simp [validateFastaContent, headIsGtPyStrip _ (headIsGtMkCons tl)]
  rw [hval]
  have hsne2 : String.mk sl ≠ "" := fun h => hsne ((mkEqEmptyIff sl).mp h)
  have hparse : simpleFastaParse [String.mk ('>' :: tl), String.mk sl] =
      [(pyRstrip (String.mk tl), String.mk sl)] := by
    have hT : strTail (String.mk ('>' :: tl)) = String.mk tl := rfl
    simp only [simpleFastaParse, headIsGtMkCons tl, if_pos, hT]
    simp only [fastaBody, hnh, Bool.false_eq_true, if_false, List.nil_append]
    rw [pyRstripNoWs (String.mk sl) (fun c hc => hseq c hc)]
    rw [seqJoinPyNoWs [String.mk sl]
      (by intro x hx; rw [List.mem_singleton.mp hx]; exact noWsStrIntro _ hsne2 hseq)]
    rw [strConcatSingleton]
  rw [hparse]
  simp [fastaYield, hsne2, hid]

/-- Witness for C4 amended at the claim's example header
`>id some description`: the yielded header is `id`. -/
theorem c4_amended_header_is_first_word_witness :
    pyFirstWord (pyRstrip (String.mk ("id some description".toList))) = "id" ∧
    readFastaRun ⟨"d2.fasta", .regular true
        [String.mk ('>' :: "id some description".toList), String.mk ("XX".toList)]⟩ =
      ([⟨pyFirstWord (pyRstrip (String.mk ("id some description".toList))),
         String.mk ("XX".toList)⟩], none) :=
  ⟨by decide,
    c4_amended_header_is_first_word "d2.fasta" ("id some description".toList) ("XX".toList)
      (by decide) (by decide) (by decide) (by decide)⟩

/-- C10.  Calling `read_fasta_file` performs no validation at call time:
because the body is a generator, the call always returns an iterator
without raising, for every path; each error of the taxonomy — file
missing, path not a regular file, corrupt gzip, and the structural
errors (shown here for the empty file) — is raised only when the first
record is requested from the iterator. -/
theorem c10_generator_defers_validation (f : SourceFile) :
    callReadFasta f = .ok (.unstarted f) ∧
    (f.kind = .missing →
      genNext (.unstarted f) =
        .error (.fileProcessing ("Input file does not exist: " ++ f.name) f.name)) ∧
    (f.kind = .notAFile →
      genNext (.unstarted f) =
        .error (.fileProcessing ("Input path is not a file: " ++ f.name) f.name)) ∧
    (∀ lines, f.kind = .regular false lines → endsWithGz f.name = true →
      genNext (.unstarted f) =
        .error (.fileProcessing ("File is not a valid GZIP file: " ++ f.name) f.name)) ∧
    (f.kind = .regular true [] →
      genNext (.unstarted f) =
        .error (.invalidFormat "File is empty: no FASTA records found." f.name)) := by
  obtain ⟨name, kind⟩ := f
  refine ⟨rfl, ?_, ?_, ?_, ?_⟩
  · intro h
    simp only at h
    subst h
    rfl
  · intro h
    simp only at h
    subst h
    rfl
  · intro lines h hgz
    simp only at h
    subst h
    simp [genNext, readFastaRun, validateFileExists, hgz]
  · intro h
    simp only at h
    subst h
    simp [genNext, readFastaRun, validateFileExists, validateFastaContent]

/-- Witness for C10: the call succeeds and the first request raises, at
each of four concrete inputs — a missing path, a directory, a corrupt
`.gz` file, and an empty regular file. -/
theorem c10_generator_defers_validation_witness :
    (callReadFasta ⟨"m.fasta", .missing⟩ = .ok (.unstarted ⟨"m.fasta", .missing⟩) ∧
      genNext (.unstarted ⟨"m.fasta", .missing⟩) =
        .error (.fileProcessing ("Input file does not exist: " ++ "m.fasta") "m.fasta")) ∧
    (genNext (.unstarted ⟨".", .notAFile⟩) =
      .error (.fileProcessing ("Input path is not a file: " ++ ".") ".")) ∧
    (genNext (.unstarted ⟨"bad.fasta.gz", .regular false [">A", "XX"]⟩) =
      .error (.fileProcessing ("File is not a valid GZIP file: " ++ "bad.fasta.gz") "bad.fasta.gz")) ∧
    (genNext (.unstarted ⟨"empty.fasta", .regular true []⟩) =
      .error (.invalidFormat "File is empty: no FASTA records found." "empty.fasta")) := by
  obtain ⟨hcall, hmiss, _, _, _⟩ := c10_generator_defers_validation ⟨"m.fasta", .missing⟩
  obtain ⟨_, _, hdir, _, _⟩ := c10_generator_defers_validation ⟨".", .notAFile⟩
  obtain ⟨_, _, _, hgz, _⟩ :=
    c10_generator_defers_validation ⟨"bad.fasta.gz", .regular false [">A", "XX"]⟩
  obtain ⟨_, _, _, _, hempty⟩ :=
    c10_generator_defers_validation ⟨"empty.fasta", .regular true []⟩
  exact ⟨⟨hcall, hmiss rfl⟩, hdir rfl, hgz [">A", "XX"] rfl (by decide), hempty rfl⟩

/-- The record loop yields all good records of a prefix and stops with
the "Sequence missing for header." error at the first empty-sequence
pair, whatever follows it. -/
theorem fastaYieldGoodThenEmpty (fp : String) (recs : List FastaRecord)
    (h : ∀ r ∈ recs, noWsStr r.header = true ∧ r.sequence ≠ "")
    (t : String) (junk : List (String × String)) :
    fastaYield fp ((recs.map (fun r => (r.header, r.sequence))) ++ (t, "") :: junk) =
      (recs, some (.invalidFormat "Sequence missing for header." fp)) := by
  induction recs with
  | nil => simp [fastaYield]
  | cons r rest ih =>
    obtain ⟨hh, hs⟩ := h r (by simp)
    have hfw : pyFirstWord r.header = r.header := pyFirstWordNoWs _ (noWsStrSpec _ hh).2
    simp only [List.map_cons, List.cons_append, fastaYield]
    rw [if_neg hs, if_neg (by rw [hfw]; exact (noWsStrSpec _ hh).1)]
    simp only [List.append_eq]
    rw [ih (fun x hx => h x (by simp [hx]))]
    simp [hfw]

/-- C7 counterexample.  Exhausted headers `AAA` and `CCC` produce the
same error value, so the raised structural error does not identify the
exhausted header (the message is the fixed string
"Sequence missing for header." plus the filepath). -/
theorem c7_counterexample_error_does_not_name_header :
    readFastaRun ⟨"dup.fasta", .regular true [">AAA", ">B", "XX"]⟩ =
      readFastaRun ⟨"dup.fasta", .regular true [">CCC", ">B", "XX"]⟩ ∧
    readFastaRun ⟨"dup.fasta", .regular true [">AAA", ">B", "XX"]⟩ =
      ([], some (Err.invalidFormat "Sequence missing for header." "dup.fasta")) := by
  exact ⟨by decide, by decide⟩

/-- C7 amended: a header line immediately followed by another header
line makes the run fail with the generic structural error
"Sequence missing for header." (which does not name the header), after
yielding exactly the well-formed records preceding the exhausted header
— none of which has an empty sequence. -/
theorem c7_adjacent_headers_fail (name : String) (gls : List String)
    (h1 h2 : String) (rest : List String)
    (hwf : wfGroups gls = true) (hh1 : headIsGt h1 = true) (hh2 : headIsGt h2 = true) :
    readFastaRun ⟨name, .regular true (gls ++ h1 :: h2 :: rest)⟩ =
      (specRecords gls, some (Err.invalidFormat "Sequence missing for header." name)) ∧
    ∀ r ∈ specRecords gls, r.sequence ≠ "" := by
  have hgood : ∀ r ∈ specRecords gls, noWsStr r.header = true ∧ r.sequence ≠ "" :=
    specRecordsGood gls.length gls le_rfl hwf
  constructor
  · have hfirst : headIsGt (pyStrip ((gls ++ h1 :: h2 :: rest).headD "")) = true := by
      rcases gls with _ | ⟨g, gls2⟩
      · simpa using headIsGtPyStrip h1 hh1
      · rw [wfGroups] at hwf
        simp only [Bool.and_eq_true] at hwf
        simpa using headIsGtPyStrip g hwf.1.1.1
    rcases he : gls ++ h1 :: h2 :: rest with _ | ⟨l0, lrest⟩
    · exact absurd he (by simp)
    · rw [readFastaRunRegularEq name true _ (by simp)]
      have hval : validateFastaContent (l0 :: lrest) name = none := by
        rw [he] at hfirst
        simp only [List.headD_cons] at hfirst
        simp [validateFastaContent, hfirst]
      rw [hval, ← he]
      rw [simpleFastaParseAppend gls (h1 :: h2 :: rest) hwf (by simp [hh1])]
      have htail : simpleFastaParse (h1 :: h2 :: rest) =
          (pyRstrip (strTail h1), "") ::
            fastaBody (pyRstrip (strTail h2)) [] rest := by
        simp only [simpleFastaParse, hh1, if_pos]
        simp only [fastaBody, hh2, if_pos]
        rfl
      rw [htail]
      exact fastaYieldGoodThenEmpty name (specRecords gls) hgood
        (pyRstrip (strTail h1)) (fastaBody (pyRstrip (strTail h2)) [] rest)
  · exact fun r hr => (hgood r hr).2

/-- Witness for C7 amended at the test fixture `">Seq1\n>Seq2"`. -/
theorem c7_adjacent_headers_fail_witness :
    wfGroups [] = true ∧ headIsGt ">Seq1" = true ∧ headIsGt ">Seq2" = true ∧
    readFastaRun ⟨"no_sequence.fasta", .regular true [">Seq1", ">Seq2"]⟩ =
      ([], some (Err.invalidFormat "Sequence missing for header." "no_sequence.fasta")) := by
  have h := (c7_adjacent_headers_fail "no_sequence.fasta" [] ">Seq1" ">Seq2" []
    wfGroupsNilEq (by decide) (by decide)).1
  exact ⟨wfGroupsNilEq, by decide, by decide, by simpa [specRecordsNilEq] using h⟩

/-- C2 (code bug).  A CSV whose header row lacks the required `sequence`
column is accepted by `create_dataset_from_csv`: no structural error
naming the missing columns is raised and a dataset is produced, although
the CLI documentation ("The CSV file must have at least 'header' and
'sequence' columns") and the test
`test_create_dataset_from_csv_missing_required_columns` require an
`InvalidFormatError`. -/
theorem c2_missing_required_columns_accepted :
    createDatasetFromCsv
        ⟨"missing_columns.csv", .regular true ["header,description", "x,y"]⟩ 1000 none =
      .ok ⟨[("header", "string"), ("description", "string")],
           [[("header", .text "x"), ("description", .text "y")]]⟩ := by
  decide

/-- C5 (code bug).  A CSV consisting of a well-formed header row and
zero data rows is accepted by `create_dataset_from_csv`, which returns
an empty dataset instead of raising the per-file structural error
`StructuralError("no data rows")` demanded by the specification and by
the test `test_create_dataset_from_csv_empty_file`; only the post-hoc
dataset-level check at the CLI boundary then fails, with the generic
`Bio2ParquetError`. -/
theorem c5_header_only_csv_returns_empty_dataset :
    createDatasetFromCsv ⟨"empty.csv", .regular true ["header,sequence"]⟩ 1000 none =
      .ok ⟨[("header", "null"), ("sequence", "null")], []⟩ ∧
    handleEmptyDataset ⟨[("header", "null"), ("sequence", "null")], []⟩ =
      some (.bio2parquet
        "The input file seems to be empty or could not be parsed correctly, resulting in an empty dataset.") := by
  exact ⟨by decide, by decide⟩

/-- C8 counterexample.  The cell `007` is read through pandas dtype
inference as the number 7 and materialized as the string `7`: the
original text `007` is not preserved. -/
theorem c8_counterexample_numeric_coercion :
    createDatasetFromCsv ⟨"num.csv", .regular true ["header,sequence", "007,AAA"]⟩ 1000 none =
      .ok ⟨[("header", "string"), ("sequence", "string")],
           [[("header", .text "7"), ("sequence", .text "AAA")]]⟩ ∧
    Cell.text "7" ≠ Cell.text "007" := by
  exact ⟨by decide, by decide⟩

/-- C8 amended: for every accepted CSV input that yields a nonempty
dataset, the schema maps every column to the string type and every
stored cell is text — but the stored text is the `str()` rendering of
the pandas-inferred value, not necessarily the original cell text. -/
theorem c8_amended_schema_all_string (f : SourceFile) (chunkSize : Nat)
    (maxWorkers : Option Nat) (ds : HfDataset)
    (hok : createDatasetFromCsv f chunkSize maxWorkers = .ok ds) (hne : ds.rows ≠ []) :
    (∀ cf ∈ ds.features, cf.2 = "string") ∧
    (∀ row ∈ ds.rows, ∀ cv ∈ row, ∃ s, cv.2 = Cell.text s) := by
  unfold createDatasetFromCsv at hok
  cases hv : validateFileExists f with
  | some e =>
    rw [hv] at hok
    exact absurd hok (by simp)
  | none =>
    rw [hv] at hok
    cases hr : readCsvFile f with
    | error e =>
      rw [hr] at hok
      exact absurd hok (by simp)
    | ok df =>
      rw [hr] at hok
      by_cases hemp : df.rows.isEmpty
      · simp only [hemp, if_true] at hok
        have hds := Except.ok.inj hok
        exact absurd (congrArg HfDataset.rows hds).symm hne
      · simp only [hemp, Bool.false_eq_true, if_false] at hok
        have hds := Except.ok.inj hok
        subst hds
        constructor
        · intro cf hcf
          rw [List.mem_map] at hcf
          obtain ⟨c, _, rfl⟩ := hcf
          rfl
        · intro row hrow cv hcv
          rw [List.mem_map] at hrow
          obtain ⟨rec, _, rfl⟩ := hrow
          unfold encodeRowString at hcv
          rw [List.mem_map] at hcv
          obtain ⟨cv0, _, rfl⟩ := hcv
          exact ⟨cellStr cv0.2, rfl⟩

/-- Witness for C8 amended at the `007` input. -/
theorem c8_amended_schema_all_string_witness :
    (∀ cf ∈ ([("header", "string"), ("sequence", "string")] : List (String × String)),
      cf.2 = "string") ∧
    (∀ row ∈ ([[("header", Cell.text "7"), ("sequence", Cell.text "AAA")]] :
        List (List (String × Cell))),
      ∀ cv ∈ row, ∃ s, cv.2 = Cell.text s) :=
  c8_amended_schema_all_string
    ⟨"num.csv", .regular true ["header,sequence", "007,AAA"]⟩ 1000 none
    ⟨[("header", "string"), ("sequence", "string")],
     [[("header", Cell.text "7"), ("sequence", Cell.text "AAA")]]⟩
    (by decide) (by decide)
